import Mathlib

/-!
Verification development for the cache abstraction layer, the router guard and
the container entrypoint of the lerna-monorepo template.

The cache module ships in the repository only as documentation
(`app/core/cache/README.md`); its Python implementation files are not part of
the checked-in sources.  The cache definitions below are therefore modelled
from the specification text, as indicated by their doc comments.  The router
guard (`ProtectedRoute`, `routesConfig`) and the Docker entrypoint script are
present in the sources and are translated from them directly.
-/

namespace Cache

/-- Modelled from the spec: the error taxonomy of section 7 — Configuration
errors (fatal at Factory construction), Serialization errors (value not
representable by the Codec), and Backend-unavailable (transport, timeout,
pool exhaustion). -/
inductive CacheError
  | configuration
  | serialization
  | backendUnavailable
deriving DecidableEq, Repr

/-- Modelled from the spec: the concrete kinds of backend failure the spec
lists (transport error, timeout, connection-pool exhaustion).  The Redis
backend converts each of them into a uniform backend-unavailable signal. -/
inductive BackendFailure
  | transport
  | timeout
  | poolExhausted
deriving DecidableEq, Repr

mutual

/-- Modelled from the spec: the values handled by the Key/Value Codec.  The
JSON-representable shapes (null, booleans, integers, strings, arrays,
objects) are the "values representable in the format"; `vobj` stands for a
non-serializable host object (for example a Python set or a custom class),
whose encoding must be reported as a Serialization error. -/
inductive PyVal : Type
  | vnull : PyVal
  | vbool (b : Bool) : PyVal
  | vint (n : Int) : PyVal
  | vstr (s : String) : PyVal
  | vlist (l : PyList) : PyVal
  | vdict (d : PyDict) : PyVal
  | vobj (r : String) : PyVal
deriving DecidableEq, Repr

/-- A list of values (a JSON array). -/
inductive PyList : Type
  | nil : PyList
  | cons (hd : PyVal) (tl : PyList) : PyList
deriving DecidableEq, Repr

/-- A string-keyed association (a JSON object). -/
inductive PyDict : Type
  | nil : PyDict
  | cons (k : String) (v : PyVal) (tl : PyDict) : PyDict
deriving DecidableEq, Repr

end

/-- Length of a `PyList`. -/
def PyList.length : PyList → Nat
  | .nil => 0
  | .cons _ tl => tl.length + 1

/-- Length of a `PyDict`. -/
def PyDict.length : PyDict → Nat
  | .nil => 0
  | .cons _ _ tl => tl.length + 1

/-- Modelled from the spec: the storage-safe serialized representation.  The
Codec writes a self-describing token stream; an array or object is written as
a header carrying its length followed by its elements. -/
inductive Tok : Type
  | tnull
  | tbool (b : Bool)
  | tint (n : Int)
  | tstr (s : String)
  | tarr (n : Nat)
  | tobj (n : Nat)
  | tkey (k : String)
deriving DecidableEq, Repr

mutual

/-- Modelled from the spec: `encode` for a single value.  Returns `none`
exactly when the value contains a non-serializable object. -/
def encV : PyVal → Option (List Tok)
  | .vnull => some [.tnull]
  | .vbool b => some [.tbool b]
  | .vint n => some [.tint n]
  | .vstr s => some [.tstr s]
  | .vlist l => do pure (Tok.tarr l.length :: (← encL l))
  | .vdict d => do pure (Tok.tobj d.length :: (← encD d))
  | .vobj _ => none

/-- Encode the elements of an array in order. -/
def encL : PyList → Option (List Tok)
  | .nil => some []
  | .cons hd tl => do pure ((← encV hd) ++ (← encL tl))

/-- Encode the key/value pairs of an object in order. -/
def encD : PyDict → Option (List Tok)
  | .nil => some []
  | .cons k v tl => do pure (Tok.tkey k :: ((← encV v) ++ (← encD tl)))

end

mutual

/-- Modelled from the spec: the decoder, a prefix-consuming parser over the
token stream.  `fuel` bounds the nesting depth; every recursive call
decreases it. -/
def parseV : Nat → List Tok → Option (PyVal × List Tok)
  | 0, _ => none
  | _ + 1, [] => none
  | _ + 1, .tnull :: r => some (.vnull, r)
  | _ + 1, .tbool b :: r => some (.vbool b, r)
  | _ + 1, .tint n :: r => some (.vint n, r)
  | _ + 1, .tstr s :: r => some (.vstr s, r)
  | f + 1, .tarr n :: r => do
      let (l, r1) ← parseL f n r
      pure (PyVal.vlist l, r1)
  | f + 1, .tobj n :: r => do
      let (d, r1) ← parseD f n r
      pure (PyVal.vdict d, r1)
  | _ + 1, .tkey _ :: _ => none

/-- Parse exactly `n` array elements. -/
def parseL : Nat → Nat → List Tok → Option (PyList × List Tok)
  | _, 0, r => some (.nil, r)
  | 0, _ + 1, _ => none
  | f + 1, n + 1, r => do
      let (v, r1) ← parseV f r
      let (l, r2) ← parseL f n r1
      pure (PyList.cons v l, r2)

/-- Parse exactly `n` object entries. -/
def parseD : Nat → Nat → List Tok → Option (PyDict × List Tok)
  | _, 0, r => some (.nil, r)
  | 0, _ + 1, _ => none
  | f + 1, n + 1, .tkey k :: r => do
      let (v, r1) ← parseV f r
      let (d, r2) ← parseD f n r1
      pure (PyDict.cons k v d, r2)
  | _ + 1, _ + 1, _ => none

end

mutual

/-- Fuel sufficient for `parseV` to re-read the encoding of a value. -/
def fuelV : PyVal → Nat
  | .vlist l => fuelL l + 1
  | .vdict d => fuelD d + 1
  | _ => 1

/-- Fuel sufficient for `parseL` to re-read the encoding of array elements. -/
def fuelL : PyList → Nat
  | .nil => 0
  | .cons hd tl => Nat.max (fuelV hd) (fuelL tl) + 1

/-- Fuel sufficient for `parseD` to re-read the encoding of object entries. -/
def fuelD : PyDict → Nat
  | .nil => 0
  | .cons _ v tl => Nat.max (fuelV v) (fuelD tl) + 1

end

/-- Modelled from the spec: `encode(value) -> bytes`.  A value containing a
non-serializable object is reported as a Serialization error — a distinct
error kind — rather than silently dropped. -/
def encode (v : PyVal) : Except CacheError (List Tok) :=
  match encV v with
  | some ts => .ok ts
  | none => .error .serialization

/-- Modelled from the spec: `decode(bytes) -> value`.  Runs the parser with
fuel `2 * length` (which suffices for any canonical encoding) and requires
the whole stream to be consumed. -/
def decode (ts : List Tok) : Except CacheError PyVal :=
  match parseV (2 * ts.length) ts with
  | some (v, []) => .ok v
  | _ => .error .serialization

mutual

/-- Serializability of a value: it contains no non-serializable object. -/
def serializable : PyVal → Bool
  | .vobj _ => false
  | .vlist l => serializableL l
  | .vdict d => serializableD d
  | _ => true

/-- Serializability of every element of an array. -/
def serializableL : PyList → Bool
  | .nil => true
  | .cons hd tl => serializable hd && serializableL tl

/-- Serializability of every value of an object. -/
def serializableD : PyDict → Bool
  | .nil => true
  | .cons _ v tl => serializable v && serializableD tl

end

mutual

/-- The encoder succeeds exactly on serializable values. -/
theorem encV_isSome (v : PyVal) : (encV v).isSome = serializable v := by
  cases v with
  | vnull => rfl
  | vbool b => rfl
  | vint n => rfl
  | vstr s => rfl
  | vobj r => rfl
  | vlist l =>
      simp only [encV, serializable, ← encL_isSome l]
      cases hl : encL l <;> simp [hl]
  | vdict d =>
      simp only [encV, serializable, ← encD_isSome d]
      cases hd : encD d <;> simp [hd]

/-- The array encoder succeeds exactly on serializable element lists. -/
theorem encL_isSome (l : PyList) : (encL l).isSome = serializableL l := by
  cases l with
  | nil => rfl
  | cons hd tl =>
      simp only [encL, serializableL, ← encV_isSome hd, ← encL_isSome tl]
      cases ha : encV hd <;> cases hb : encL tl <;> simp [ha, hb]

/-- The object encoder succeeds exactly on serializable entry lists. -/
theorem encD_isSome (d : PyDict) : (encD d).isSome = serializableD d := by
  cases d with
  | nil => rfl
  | cons k v tl =>
      simp only [encD, serializableD, ← encV_isSome v, ← encD_isSome tl]
      cases ha : encV v <;> cases hb : encD tl <;> simp [ha, hb]

end

mutual

/-- Fuel bound: the fuel needed to re-read an encoding is below twice its
length. -/
theorem fuelV_lt (v : PyVal) (ts : List Tok) (he : encV v = some ts) :
    fuelV v < 2 * ts.length := by
  cases v with
  | vnull => cases he; simp [fuelV]
  | vbool b => cases he; simp [fuelV]
  | vint n => cases he; simp [fuelV]
  | vstr s => cases he; simp [fuelV]
  | vobj r => cases he
  | vlist l =>
      cases hl : encL l with
      | none => simp [encV, hl] at he
      | some tsl =>
          simp [encV, hl] at he
          have := fuelL_le l tsl hl
          subst he
          simp only [fuelV, List.length_cons]
          omega
  | vdict d =>
      cases hd : encD d with
      | none => simp [encV, hd] at he
      | some tsd =>
          simp [encV, hd] at he
          have := fuelD_le d tsd hd
          subst he
          simp only [fuelV, List.length_cons]
          omega

/-- Fuel bound for array element lists. -/
theorem fuelL_le (l : PyList) (ts : List Tok) (he : encL l = some ts) :
    fuelL l ≤ 2 * ts.length := by
  cases l with
  | nil => cases he; decide
  | cons hd tl =>
      cases ha : encV hd with
      | none => simp [encL, ha] at he
      | some tsa =>
          cases hb : encL tl with
          | none => simp [encL, ha, hb] at he
          | some tsb =>
              simp [encL, ha, hb] at he
              have h1 := fuelV_lt hd tsa ha
              have h2 := fuelL_le tl tsb hb
              subst he
              simp only [fuelL, List.length_append]
              rw [Nat.add_one_le_iff, Nat.max_lt]
              omega

/-- Fuel bound for object entry lists. -/
theorem fuelD_le (d : PyDict) (ts : List Tok) (he : encD d = some ts) :
    fuelD d ≤ 2 * ts.length := by
  cases d with
  | nil => cases he; decide
  | cons k v tl =>
      cases ha : encV v with
      | none => simp [encD, ha] at he
      | some tsa =>
          cases hb : encD tl with
          | none => simp [encD, ha, hb] at he
          | some tsb =>
              simp [encD, ha, hb] at he
              have h1 := fuelV_lt v tsa ha
              have h2 := fuelD_le tl tsb hb
              subst he
              simp only [fuelD, List.length_cons, List.length_append]
              rw [Nat.add_one_le_iff, Nat.max_lt]
              omega

end

mutual

/-- Round-trip at the parser level: with enough fuel, the parser reads back
the encoded value and leaves the trailing tokens untouched. -/
theorem parse_encV (v : PyVal) (ts rest : List Tok) (f : Nat)
    (he : encV v = some ts) (hf : fuelV v ≤ f) :
    parseV f (ts ++ rest) = some (v, rest) := by
  obtain ⟨f1, rfl⟩ : ∃ f1, f = f1 + 1 := by
    cases v <;> simp [fuelV] at hf <;> exact ⟨f - 1, by omega⟩
  cases v with
  | vnull => cases he; rfl
  | vbool b => cases he; rfl
  | vint n => cases he; rfl
  | vstr s => cases he; rfl
  | vobj r => cases he
  | vlist l =>
      cases hl : encL l with
      | none => simp [encV, hl] at he
      | some tsl =>
          simp [encV, hl] at he
          subst he
          simp only [fuelV, Nat.add_le_add_iff_right] at hf
          simp only [List.cons_append, parseV]
          rw [parse_encL l tsl rest f1 hl hf]
          rfl
  | vdict d =>
      cases hd : encD d with
      | none => simp [encV, hd] at he
      | some tsd =>
          simp [encV, hd] at he
          subst he
          simp only [fuelV, Nat.add_le_add_iff_right] at hf
          simp only [List.cons_append, parseV]
          rw [parse_encD d tsd rest f1 hd hf]
          rfl

/-- Round-trip for array element lists. -/
theorem parse_encL (l : PyList) (ts rest : List Tok) (f : Nat)
    (he : encL l = some ts) (hf : fuelL l ≤ f) :
    parseL f l.length (ts ++ rest) = some (l, rest) := by
  cases l with
  | nil => cases he; simp [PyList.length, parseL]
  | cons hd tl =>
      cases ha : encV hd with
      | none => simp [encL, ha] at he
      | some tsa =>
          cases hb : encL tl with
          | none => simp [encL, ha, hb] at he
          | some tsb =>
              simp [encL, ha, hb] at he
              subst he
              simp only [fuelL, Nat.add_one_le_iff, Nat.max_lt] at hf
              obtain ⟨f1, rfl⟩ : ∃ f1, f = f1 + 1 := ⟨f - 1, by omega⟩
              have hs : (tsa ++ tsb) ++ rest = tsa ++ (tsb ++ rest) :=
                List.append_assoc tsa tsb rest
              rw [hs]
              simp only [PyList.length, parseL]
              rw [parse_encV hd tsa (tsb ++ rest) f1 ha (by omega)]
              simp only [Option.bind_eq_bind, Option.some_bind]
              rw [parse_encL tl tsb rest f1 hb (by omega)]
              rfl

/-- Round-trip for object entry lists. -/
theorem parse_encD (d : PyDict) (ts rest : List Tok) (f : Nat)
    (he : encD d = some ts) (hf : fuelD d ≤ f) :
    parseD f d.length (ts ++ rest) = some (d, rest) := by
  cases d with
  | nil => cases he; simp [PyDict.length, parseD]
  | cons k v tl =>
      cases ha : encV v with
      | none => simp [encD, ha] at he
      | some tsa =>
          cases hb : encD tl with
          | none => simp [encD, ha, hb] at he
          | some tsb =>
              simp [encD, ha, hb] at he
              subst he
              simp only [fuelD, Nat.add_one_le_iff, Nat.max_lt] at hf
              obtain ⟨f1, rfl⟩ : ∃ f1, f = f1 + 1 := ⟨f - 1, by omega⟩
              have hs : (Tok.tkey k :: (tsa ++ tsb)) ++ rest =
                  Tok.tkey k :: (tsa ++ (tsb ++ rest)) := by
                simp
              rw [hs]
              simp only [PyDict.length, parseD]
              rw [parse_encV v tsa (tsb ++ rest) f1 ha (by omega)]
              simp only [Option.bind_eq_bind, Option.some_bind]
              rw [parse_encD tl tsb rest f1 hb (by omega)]
              rfl

end

/-- The round-trip law of the Codec: decoding a successful encoding yields
the original value. -/
theorem decode_encode (v : PyVal) (ts : List Tok) (he : encode v = .ok ts) :
    decode ts = .ok v := by
  have h : encV v = some ts := by
    unfold encode at he
    cases hv : encV v with
    | none => rw [hv] at he; cases he
    | some ts2 => rw [hv] at he; injection he with hh; rw [hh]
  have hp := parse_encV v ts [] (2 * ts.length) h
    (Nat.le_of_lt (fuelV_lt v ts h))
  rw [List.append_nil] at hp
  unfold decode
  rw [hp]

/-- Unserializable values are reported as a Serialization error. -/
theorem encode_unserializable (v : PyVal) (h : serializable v = false) :
    encode v = .error .serialization := by
  have hs := encV_isSome v
  rw [h] at hs
  unfold encode
  cases he : encV v with
  | none => rfl
  | some ts => rw [he] at hs; simp at hs

/-! ## Backend store and Cache Manager -/

/-- Modelled from the spec: a TTL given to `set`, either plain seconds or a
timedelta-like duration, which the backend layer converts to whole seconds.
A timedelta is represented by its microsecond count. -/
inductive TtlIn
  | seconds (n : Nat)
  | delta (usec : Nat)
deriving DecidableEq, Repr

/-- Modelled from the spec: conversion of a timedelta-like duration to the
integer seconds passed to the backend expiry mechanism — rounding down, with
a minimum of 1 when the duration is greater than zero but below one second. -/
def ttlToSeconds (usec : Nat) : Nat :=
  if 0 < usec ∧ usec < 1000000 then 1 else usec / 1000000

/-- Seconds handed to the backend for either TTL form. -/
def TtlIn.toSeconds : TtlIn → Nat
  | .seconds n => n
  | .delta u => ttlToSeconds u

/-- Modelled from the spec: a cache entry — key, serialized value, optional
expiry in seconds. -/
structure Entry where
  key : String
  val : List Tok
  expiry : Option Nat
deriving DecidableEq, Repr

/-- Modelled from the spec: the backend keyspace together with its
availability; `fail?` carries the current backend failure, if any.  The Redis
backend converts every transport-level problem into this uniform signal. -/
structure Backend where
  fail? : Option BackendFailure
  store : List Entry
deriving DecidableEq, Repr

/-- Serialized bytes currently stored under a key. -/
def Backend.lookup (b : Backend) (k : String) : Option (List Tok) :=
  (b.store.find? (fun e => e.key == k)).map (fun e => e.val)

/-- The full entry currently stored under a key. -/
def Backend.lookupEntry (b : Backend) (k : String) : Option Entry :=
  b.store.find? (fun e => e.key == k)

/-- Character-list prefix test. -/
def isPrefixChars : List Char → List Char → Bool
  | [], _ => true
  | _ :: _, [] => false
  | p :: ps, c :: cs => p == c && isPrefixChars ps cs

/-- String prefix test used by namespace-restricted clearing. -/
def hasPref (p s : String) : Bool := isPrefixChars p.toList s.toList

/-- Glob matching on character lists with a `*` wildcard, fuelled so that the
definition is structurally recursive; the fuel used by `globMatch` always
suffices because every step shortens pattern or key. -/
def globMatchL : Nat → List Char → List Char → Bool
  | 0, _, _ => false
  | _ + 1, [], [] => true
  | _ + 1, [], _ :: _ => false
  | f + 1, '*' :: ps, [] => globMatchL f ps []
  | f + 1, '*' :: ps, c :: cs => globMatchL f ps (c :: cs) || globMatchL f ('*' :: ps) cs
  | _ + 1, _ :: _, [] => false
  | f + 1, p :: ps, c :: cs => p == c && globMatchL f ps cs

/-- Modelled from the spec: the backend key-matching facility for pattern
invalidation (`*` wildcard, as in the Redis KEYS command). -/
def globMatch (pat s : String) : Bool :=
  globMatchL (pat.length + s.length + 1) pat.toList s.toList

/-- Modelled from the spec: pattern deletion — enumerate the keys matching
the glob pattern and delete them, leaving every other key untouched.  On an
unavailable backend nothing is deleted. -/
def deletePattern (b : Backend) (pat : String) : Backend :=
  match b.fail? with
  | some _ => b
  | none => { b with store := b.store.filter (fun e => !(globMatch pat e.key)) }

/-- Modelled from the spec: `CacheManager.get` — delegates to the backend and
converts any backend failure into the safe default "absent"; a value that
fails to decode surfaces as a Serialization error. -/
def managerGet (b : Backend) (k : String) : Except CacheError (Option PyVal) :=
  match b.fail? with
  | some _ => .ok none
  | none =>
      match b.lookup k with
      | none => .ok none
      | some ts =>
          match decode ts with
          | .ok v => .ok (some v)
          | .error e => .error e

/-- Modelled from the spec: `CacheManager.set` — encodes through the Codec
(a Serialization error surfaces), converts the TTL to seconds, and returns
`false` instead of an error when the backend is unavailable. -/
def managerSet (b : Backend) (k : String) (v : PyVal) (exp : Option TtlIn) :
    Except CacheError (Bool × Backend) :=
  match encode v with
  | .error e => .error e
  | .ok ts =>
      match b.fail? with
      | some _ => .ok (false, b)
      | none =>
          .ok (true, { b with
            store := ⟨k, ts, exp.map TtlIn.toSeconds⟩ ::
              b.store.filter (fun e => e.key != k) })

/-- Modelled from the spec: `CacheManager.delete` — deleting an absent key is
a defined no-op success (`false`, nothing removed), never an error; backend
failure yields `false`. -/
def managerDelete (b : Backend) (k : String) : Except CacheError (Bool × Backend) :=
  match b.fail? with
  | some _ => .ok (false, b)
  | none =>
      .ok ((b.lookup k).isSome, { b with store := b.store.filter (fun e => e.key != k) })

/-- Modelled from the spec: `CacheManager.exists` — absence is a first-class
`false`, backend failure also degrades to `false`. -/
def managerExists (b : Backend) (k : String) : Except CacheError Bool :=
  match b.fail? with
  | some _ => .ok false
  | none => .ok (b.lookup k).isSome

/-- Modelled from the spec: `CacheManager.clear` — deletes only the keys
under the configured key-prefix namespace, never the rest of the backend
keyspace; backend failure yields `false`. -/
def managerClear (b : Backend) (pref : String) : Except CacheError (Bool × Backend) :=
  match b.fail? with
  | some _ => .ok (false, b)
  | none =>
      .ok (true, { b with store := b.store.filter (fun e => !(hasPref (pref ++ ":") e.key)) })

/-- Modelled from the spec: `health_check` — returns `false` (not an error)
when the backend is unreachable. -/
def managerHealthCheck (b : Backend) : Bool :=
  match b.fail? with
  | some _ => false
  | none => true

/-! ## Caching decorators -/

/-- Modelled from the spec: deterministic cache-key derivation from the key
prefix, the wrapped operation's identity and its argument. -/
def keyFor (pref fname : String) (arg : Nat) : String :=
  pref ++ ":" ++ fname ++ ":" ++ toString arg

/-- Outcome of one call to a read-through-decorated operation: the value
returned to the caller (`none` when the wrapped operation raised), the
backend state afterwards, and how many times the wrapped operation ran. -/
structure RTOut where
  result : Option PyVal
  state : Backend
  calls : Nat
deriving DecidableEq, Repr

/-- Modelled from the spec: the `cache_response` read-through decorator.  It
attempts a `get`; on a hit it returns the cached value without invoking the
wrapped operation; on a miss or a Manager-reported failure it invokes the
wrapped operation `f` and, only if `f` completes successfully, attempts to
`set` the result before returning it.  A failing `set` never hides the
result from the caller. -/
def cacheResponse (pref fname : String) (exp : Option TtlIn)
    (f : Nat → Option PyVal) (b : Backend) (arg : Nat) : RTOut :=
  match managerGet b (keyFor pref fname arg) with
  | .ok (some v) => ⟨some v, b, 0⟩
  | _ =>
      match f arg with
      | none => ⟨none, b, 1⟩
      | some v =>
          match managerSet b (keyFor pref fname arg) v exp with
          | .ok (_, b1) => ⟨some v, b1, 1⟩
          | .error _ => ⟨some v, b, 1⟩

/-- Outcome of one call to an invalidation-decorated write operation: the
wrapped operation's result, the backend state afterwards, and the delete
patterns that were issued. -/
structure InvOut where
  result : Option PyVal
  state : Backend
  deletes : List String
deriving DecidableEq, Repr

/-- Modelled from the spec: the `invalidate_cache` decorator.  It invokes the
wrapped write operation first; only on success does it issue one pattern
delete per configured pattern; a failing invalidation (unavailable backend)
is absorbed and never changes the wrapped operation's result. -/
def invalidateCache (pats : List String) (f : Nat → Option PyVal)
    (b : Backend) (arg : Nat) : InvOut :=
  match f arg with
  | none => ⟨none, b, []⟩
  | some v => ⟨some v, pats.foldl deletePattern b, pats⟩

/-! ## Cache Factory -/

/-- Modelled from the spec: the Factory's process-wide state — the singleton
slot, how many Backends have ever been constructed, and a supply of fresh
instance identities (a fresh identity stands for a fresh Backend connection
pool).  The construction path is mutex-guarded in the spec, so each call to
`getCacheManager` is modelled as one atomic critical section; concurrent
first-time callers are the interleavings of those atomic sections. -/
structure FactoryState where
  slot : Option Nat
  backendsConstructed : Nat
  nextId : Nat
deriving DecidableEq, Repr

/-- The state before any access: empty slot, nothing constructed. -/
def FactoryState.init : FactoryState := ⟨none, 0, 0⟩

/-- Modelled from the spec: `get_cache_manager` — return the held instance,
or construct one (with a fresh Backend) and retain it. -/
def getCacheManager (s : FactoryState) : Nat × FactoryState :=
  match s.slot with
  | some m => (m, s)
  | none => (s.nextId, ⟨some s.nextId, s.backendsConstructed + 1, s.nextId + 1⟩)

/-- Modelled from the spec: `close_cache_manager` — release the held Manager
and clear the singleton slot. -/
def closeCacheManager (s : FactoryState) : FactoryState := { s with slot := none }

/-! ## Router guard (translated from
`packages/react-template/src/router/Index.tsx` and
`ProtectedRoute.tsx`) -/

/-- A rendered React element: a `Navigate` redirect, a fragment, or a leaf
component referenced by name. -/
inductive RElem
  | navigate (dest : String)
  | fragment (children : List RElem)
  | comp (name : String)

/-- The children an element renders directly. -/
def RElem.renderedChildren : RElem → List RElem
  | .navigate _ => []
  | .fragment cs => cs
  | .comp _ => []

/-- Translated from `ProtectedRoute.tsx`: when `isAdmin` is false it returns
`<Navigate to="/dashboard" />`; otherwise it returns a fragment holding
exactly its children. -/
def ProtectedRoute (isAdmin : Bool) (children : RElem) : RElem :=
  if !isAdmin then .navigate "/dashboard" else .fragment [children]

/-- A route-table entry (`RouteObject`): path, element, nested routes. -/
structure RouteObj where
  path : String
  element : RElem
  children : List RouteObj

/-- Translated from `router/Index.tsx`: the route table. -/
def routesConfig : List RouteObj :=
  [⟨"/", .comp "Home", []⟩,
   ⟨"/about", .comp "About", []⟩,
   ⟨"/users/:id", .comp "UserProfile", []⟩,
   ⟨"/dashboard", .comp "Dashboard", [⟨"user", .comp "UserDashboard", []⟩]⟩,
   ⟨"/admin", ProtectedRoute true (.comp "AdminDashboard"), []⟩,
   ⟨"*", .comp "NotFound", []⟩]

/-! ## Container entrypoint (translated from `devops/scripts/entrypoint.sh`) -/

/-- The environment a run of the entrypoint script sees: the four required
database variables and the exit codes the two alembic commands would
produce. -/
structure EntryEnv where
  dbHost : String
  dbUser : String
  dbPass : String
  dbName : String
  upgradeExit : Nat
  stampExit : Nat
deriving DecidableEq, Repr

/-- How a run of the script ends: an early `exit`, or `exec python -m main`. -/
inductive EntryOutcome
  | earlyExit (code : Nat)
  | execApp
deriving DecidableEq, Repr

/-- Translated from `entrypoint.sh`.  The script runs under `set -e`, but
each alembic command is the left operand of `command || { echo ...; }`: a
command in an or-list does not trigger errexit, and the fallback `echo`
succeeds, so a migration failure only appends a warning and the script goes
on to `exec python -m main`.  The returned trace lists the steps taken. -/
def entrypoint (e : EntryEnv) : EntryOutcome × List String :=
  if e.dbHost = "" ∨ e.dbUser = "" ∨ e.dbPass = "" ∨ e.dbName = "" then
    (.earlyExit 1, ["validate"])
  else
    let t1 := if e.upgradeExit = 0 then ["upgrade"] else ["upgrade", "upgrade-warn"]
    let t2 := if e.stampExit = 0 then ["stamp"] else ["stamp", "stamp-warn"]
    (.execApp, "validate" :: (t1 ++ t2 ++ ["exec-app"]))

/-! ## Auxiliary lemmas -/

/-- Filtering by a predicate that keeps everything `p` accepts does not
change the first `p`-element. -/
theorem find?_filter_keep {α : Type} (l : List α) (p q : α → Bool)
    (h : ∀ e, p e = true → q e = true) : (l.filter q).find? p = l.find? p := by
  induction l with
  | nil => rfl
  | cons e l ih =>
      cases hq : q e with
      | true =>
          cases hp : p e with
          | true => simp [List.filter_cons, List.find?, hq, hp]
          | false => simp [List.filter_cons, List.find?, hq, hp, ih]
      | false =>
          cases hp : p e with
          | true => exact absurd (h e hp) (by simp [hq])
          | false => simp [List.filter_cons, List.find?, hq, hp, ih]

/-- Filtering by a predicate that drops everything `p` accepts leaves no
`p`-element. -/
theorem find?_filter_drop {α : Type} (l : List α) (p q : α → Bool)
    (h : ∀ e, p e = true → q e = false) : (l.filter q).find? p = none := by
  induction l with
  | nil => rfl
  | cons e l ih =>
      cases hq : q e with
      | true =>
          have hp : p e = false := by
            cases hp : p e with
            | true => exact absurd (h e hp) (by simp [hq])
            | false => rfl
          simp [List.filter_cons, List.find?, hq, hp, ih]
      | false => simp [List.filter_cons, hq, ih]

/-- Decoding never reports anything but a Serialization error. -/
theorem decode_error_kind (ts : List Tok) (e : CacheError)
    (h : decode ts = .error e) : e = .serialization := by
  unfold decode at h
  split at h
  · cases h
  · cases h; rfl

/-- Encoding never reports anything but a Serialization error. -/
theorem encode_error_kind (v : PyVal) (e : CacheError)
    (h : encode v = .error e) : e = .serialization := by
  unfold encode at h
  split at h
  · cases h
  · cases h; rfl

/-- A pattern delete on an unavailable backend is absorbed: the state is
unchanged. -/
theorem foldl_deletePattern_failed (pats : List String) (b : Backend)
    (e : BackendFailure) (hb : b.fail? = some e) :
    pats.foldl deletePattern b = b := by
  induction pats with
  | nil => rfl
  | cons p ps ih =>
      have hd : deletePattern b p = b := by unfold deletePattern; rw [hb]
      rw [List.foldl_cons, hd, ih]

/-! ## Claim theorems -/

/-- Claim C1: the Cache Manager never propagates a backend failure as an
error: for every failure kind, `get` returns absent, while `set`, `delete`,
`clear` (and `exists`) return `false` and leave the store untouched; the
only errors a Manager operation can return are Serialization (or
Configuration) errors, never backend-unavailability. -/
theorem manager_absorbs_backend_failures (e : BackendFailure) (st : List Entry)
    (b : Backend) (k pref : String) (v : PyVal) (exp : Option TtlIn) :
    managerGet ⟨some e, st⟩ k = .ok none ∧
    managerDelete ⟨some e, st⟩ k = .ok (false, ⟨some e, st⟩) ∧
    managerClear ⟨some e, st⟩ pref = .ok (false, ⟨some e, st⟩) ∧
    managerExists ⟨some e, st⟩ k = .ok false ∧
    (serializable v = true → managerSet ⟨some e, st⟩ k v exp = .ok (false, ⟨some e, st⟩)) ∧
    (∀ err, managerGet b k = .error err →
      err = .serialization ∨ err = .configuration) ∧
    (∀ err, managerSet b k v exp = .error err →
      err = .serialization ∨ err = .configuration) ∧
    (∀ err, managerDelete b k ≠ .error err) ∧
    (∀ err, managerExists b k ≠ .error err) ∧
    (∀ err, managerClear b pref ≠ .error err) ∧
    managerHealthCheck ⟨some e, st⟩ = false := by
  refine ⟨rfl, rfl, rfl, rfl, ?_, ?_, ?_, ?_, ?_, ?_, rfl⟩
  · intro hs
    have hv := encV_isSome v
    rw [hs] at hv
    cases he : encV v with
    | none => rw [he] at hv; simp at hv
    | some ts => simp [managerSet, encode, he]
  · intro err h
    unfold managerGet at h
    split at h
    · cases h
    · split at h
      · cases h
      · split at h
        · cases h
        · rename_i hd
          cases h
          exact Or.inl (decode_error_kind _ _ hd)
  · intro err h
    unfold managerSet at h
    split at h
    · rename_i hd
      cases h
      exact Or.inl (encode_error_kind _ _ hd)
    · split at h <;> cases h
  · intro err
    unfold managerDelete; split <;> simp
  · intro err
    unfold managerExists; split <;> simp
  · intro err
    unfold managerClear; split <;> simp

/-- Witness for C1 at concrete inputs: a transport failure during `get`
yields absent, during `set` yields `false`, and a decode failure surfaces as
a Serialization error. -/
theorem manager_absorbs_backend_failures_witness :
    managerGet ⟨some .transport, [⟨"user:1", [.tnull], none⟩]⟩ "user:1" = .ok none ∧
    managerSet ⟨some .transport, []⟩ "user:1" (.vstr "x") none = .ok (false, ⟨some .transport, []⟩) ∧
    (CacheError.serialization = .serialization ∨ CacheError.serialization = .configuration) :=
  ⟨(manager_absorbs_backend_failures .transport [⟨"user:1", [.tnull], none⟩]
      ⟨none, []⟩ "user:1" "app" (.vstr "x") none).1,
   (manager_absorbs_backend_failures .transport []
      ⟨none, []⟩ "user:1" "app" (.vstr "x") none).2.2.2.2.1 rfl,
   (manager_absorbs_backend_failures .transport []
      ⟨none, [⟨"user:1", [.tkey "bad"], none⟩]⟩ "user:1" "app" (.vstr "x")
      none).2.2.2.2.2.1 .serialization rfl⟩

/-- Claim C4: the invalidation decorator runs the wrapped write operation
first; if it fails no pattern is deleted and the state is unchanged; if it
succeeds each configured pattern is issued exactly once and the operation's
result is returned unchanged — even when the backend is unavailable, the
invalidation failure is absorbed without touching the result. -/
theorem invalidate_cache_ordering (pats : List String) (f : Nat → Option PyVal)
    (b : Backend) (arg : Nat) :
    (f arg = none → invalidateCache pats f b arg = ⟨none, b, []⟩) ∧
    (∀ v, f arg = some v →
      (invalidateCache pats f b arg).result = some v ∧
      (invalidateCache pats f b arg).deletes = pats) ∧
    (∀ v e, f arg = some v → b.fail? = some e →
      invalidateCache pats f b arg = ⟨some v, b, pats⟩) := by
  refine ⟨?_, ?_, ?_⟩
  · intro h; unfold invalidateCache; rw [h]
  · intro v h; unfold invalidateCache; rw [h]; exact ⟨rfl, rfl⟩
  · intro v e h hb
    unfold invalidateCache
    rw [h, foldl_deletePattern_failed pats b e hb]

/-- Witness for C4: a failing write issues no deletes; a successful write on
an unavailable backend still returns its result and issues each pattern
once. -/
theorem invalidate_cache_ordering_witness :
    invalidateCache ["user_data*", "profile*"] (fun _ => none) ⟨none, []⟩ 0 =
      ⟨none, ⟨none, []⟩, []⟩ ∧
    invalidateCache ["user_data*", "profile*"] (fun _ => some .vnull)
      ⟨some .timeout, []⟩ 0 = ⟨some .vnull, ⟨some .timeout, []⟩, ["user_data*", "profile*"]⟩ :=
  ⟨(invalidate_cache_ordering ["user_data*", "profile*"] (fun _ => none) ⟨none, []⟩ 0).1 rfl,
   (invalidate_cache_ordering ["user_data*", "profile*"] (fun _ => some .vnull)
      ⟨some .timeout, []⟩ 0).2.2 .vnull .timeout rfl rfl⟩

/-- Claim C5: under the spec's mutex-guarded construction (each call one
atomic critical section), two first-time calls return the same Manager and
construct exactly one Backend; after `close_cache_manager` the next call
builds a fresh instance (a fresh Backend pool), counted by
`backendsConstructed`. -/
theorem singleton_lifecycle :
    (getCacheManager (getCacheManager FactoryState.init).2).1 =
      (getCacheManager FactoryState.init).1 ∧
    (getCacheManager (getCacheManager FactoryState.init).2).2.backendsConstructed = 1 ∧
    (getCacheManager (closeCacheManager
        (getCacheManager (getCacheManager FactoryState.init).2).2)).1 ≠
      (getCacheManager FactoryState.init).1 ∧
    (getCacheManager (closeCacheManager
        (getCacheManager (getCacheManager FactoryState.init).2).2)).2.backendsConstructed = 2 := by
  decide

/-- Claim C7: a timedelta-like TTL is passed to the backend as integer
seconds rounded down, except that a positive duration below one second is
clamped to 1; the converted value is exactly what `set` stores as the
entry's expiry. -/
theorem ttl_conversion (b : Backend) (k : String) (v : PyVal) (ts : List Tok) (u : Nat)
    (hb : b.fail? = none) (he : encode v = .ok ts) :
    managerSet b k v (some (.delta u)) = .ok (true, { b with store := Entry.mk k ts (some (ttlToSeconds u)) :: b.store.filter (fun e => e.key != k) }) ∧
    (0 < u → u < 1000000 → ttlToSeconds u = 1) ∧
    (1000000 ≤ u → ttlToSeconds u = u / 1000000) := by
  refine ⟨?_, ?_, ?_⟩
  · unfold managerSet
    rw [he, hb]
    rfl
  · intro h1 h2; unfold ttlToSeconds; rw [if_pos ⟨h1, h2⟩]
  · intro h; unfold ttlToSeconds; rw [if_neg]; omega

/-- Witness for C7: 0.5 s (500000 µs) becomes 1 s, 2.5 s becomes 2 s, and a
concrete `set` stores the converted expiry. -/
theorem ttl_conversion_witness :
    ttlToSeconds 500000 = 1 ∧ ttlToSeconds 2500000 = 2 ∧
    managerSet ⟨none, []⟩ "k" .vnull (some (.delta 500000)) =
      .ok (true, ⟨none, [⟨"k", [.tnull], some 1⟩]⟩) := by
  refine ⟨(ttl_conversion ⟨none, []⟩ "k" .vnull [.tnull] 500000 rfl rfl).2.1
      (by decide) (by decide),
    ?_, ?_⟩
  · have h := (ttl_conversion ⟨none, []⟩ "k" .vnull [.tnull] 2500000 rfl rfl).2.2
      (by decide)
    rw [h]
  · have h := (ttl_conversion ⟨none, []⟩ "k" .vnull [.tnull] 500000 rfl rfl).1
    rw [h]
    have h1 : ttlToSeconds 500000 = 1 :=
      (ttl_conversion ⟨none, []⟩ "k" .vnull [.tnull] 500000 rfl rfl).2.1
        (by decide) (by decide)
    rw [h1]
    rfl

/-- Claim C8: deleting an absent key is a defined no-op success — `delete`
returns `.ok` with `false` and an unchanged store, never an error — and the
read operations (`get`, `exists`) likewise treat absence as a first-class
result, not a failure. -/
theorem delete_absent_noop (b : Backend) (k : String)
    (hb : b.fail? = none) (ha : b.lookup k = none) :
    managerDelete b k = .ok (false, b) ∧
    managerGet b k = .ok none ∧
    managerExists b k = .ok false := by
  have hf : b.store.find? (fun e => e.key == k) = none := by
    unfold Backend.lookup at ha
    cases hx : b.store.find? (fun e => e.key == k) with
    | none => rfl
    | some v => rw [hx] at ha; cases ha
  have hfilter : b.store.filter (fun e => e.key != k) = b.store := by
    rw [List.filter_eq_self]
    intro a hmem
    have := List.find?_eq_none.mp hf a hmem
    simp only [bne_iff_ne]
    simp at this
    exact this
  refine ⟨?_, ?_, ?_⟩
  · unfold managerDelete
    split
    · rename_i heq; simp [hb] at heq
    · rw [ha, hfilter]; rfl
  · unfold managerGet
    split
    · rename_i heq; simp [hb] at heq
    · rw [ha]
  · unfold managerExists
    split
    · rename_i heq; simp [hb] at heq
    · rw [ha]; rfl

/-- Witness for C8: deleting the absent key `user:1` in a store holding only
`other` succeeds as a no-op. -/
theorem delete_absent_noop_witness :
    managerDelete ⟨none, [⟨"other", [.tnull], none⟩]⟩ "user:1" =
      .ok (false, ⟨none, [⟨"other", [.tnull], none⟩]⟩) ∧
    managerGet ⟨none, [⟨"other", [.tnull], none⟩]⟩ "user:1" = .ok none :=
  ⟨(delete_absent_noop ⟨none, [⟨"other", [.tnull], none⟩]⟩ "user:1" rfl rfl).1,
   (delete_absent_noop ⟨none, [⟨"other", [.tnull], none⟩]⟩ "user:1" rfl rfl).2.1⟩

/-- Claim C9: `ProtectedRoute` with `isAdmin = false` returns a `Navigate`
redirect to `/dashboard` and renders no children; with `isAdmin = true` it
renders exactly its children; and the route table wires `/admin` to
`ProtectedRoute` with `isAdmin` hard-coded to `true` around
`AdminDashboard`. -/
theorem protected_route_guard (c : RElem) :
    ProtectedRoute false c = .navigate "/dashboard" ∧
    (ProtectedRoute false c).renderedChildren = [] ∧
    (ProtectedRoute true c).renderedChildren = [c] ∧
    (routesConfig.find? (fun r => r.path == "/admin")).map (fun r => r.element) =
      some (ProtectedRoute true (.comp "AdminDashboard")) := by
  refine ⟨rfl, rfl, rfl, rfl⟩

/-- Claim C10: whenever the four required database variables are non-empty,
the entrypoint reaches `exec python -m main` even if both alembic commands
fail — the `|| { echo ...; }` fallbacks prevent `set -e` from aborting. -/
theorem entrypoint_resilient (e : EntryEnv)
    (h1 : e.dbHost ≠ "") (h2 : e.dbUser ≠ "") (h3 : e.dbPass ≠ "") (h4 : e.dbName ≠ "") :
    (entrypoint e).1 = .execApp ∧ "exec-app" ∈ (entrypoint e).2 := by
  unfold entrypoint
  rw [if_neg (by tauto)]
  refine ⟨rfl, ?_⟩
  split <;> split <;> simp

/-- Witness for C10: with all variables set and both alembic commands
failing with exit code 1, the application is still started. -/
theorem entrypoint_resilient_witness :
    (entrypoint ⟨"db", "admin", "secret", "appdb", 1, 1⟩).1 = .execApp :=
  (entrypoint_resilient ⟨"db", "admin", "secret", "appdb", 1, 1⟩
    (by decide) (by decide) (by decide) (by decide)).1

/-- Claim C3: the Codec round-trip law — decoding a successful encoding
returns the original value — and the distinct Serialization error kind for
unserializable values. -/
theorem codec_round_trip (v : PyVal) (ts : List Tok) :
    (encode v = .ok ts → decode ts = .ok v) ∧
    (serializable v = false → encode v = .error .serialization) :=
  ⟨decode_encode v ts, encode_unserializable v⟩

/-- Witness for C3: a concrete object round-trips, and a list containing a
Python set is reported as a Serialization error. -/
theorem codec_round_trip_witness :
    decode [.tobj 1, .tkey "name", .tstr "John"] =
      .ok (.vdict (.cons "name" (.vstr "John") .nil)) ∧
    encode (.vlist (.cons (.vobj "set()") .nil)) = .error .serialization :=
  ⟨(codec_round_trip (.vdict (.cons "name" (.vstr "John") .nil))
      [.tobj 1, .tkey "name", .tstr "John"]).1 rfl,
   (codec_round_trip (.vlist (.cons (.vobj "set()") .nil)) []).2 rfl⟩

/-- Claim C6: pattern deletion removes exactly the keys matching the glob
pattern and leaves every non-matching key unchanged, and `clear` deletes
only the keys under the configured prefix namespace. -/
theorem pattern_delete_frame (b : Backend) (pat k pref : String) (hb : b.fail? = none) :
    (globMatch pat k = false → (deletePattern b pat).lookup k = b.lookup k) ∧
    (globMatch pat k = true → (deletePattern b pat).lookup k = none) ∧
    (∀ b1, managerClear b pref = .ok (true, b1) →
      (hasPref (pref ++ ":") k = false → b1.lookup k = b.lookup k) ∧
      (hasPref (pref ++ ":") k = true → b1.lookup k = none)) := by
  have hd : deletePattern b pat =
      { b with store := b.store.filter (fun e => !(globMatch pat e.key)) } := by
    unfold deletePattern
    rw [hb]
  refine ⟨?_, ?_, ?_⟩
  · intro hm
    rw [hd]
    unfold Backend.lookup
    have hkeep : ∀ e : Entry, (e.key == k) = true → (!(globMatch pat e.key)) = true := by
      intro e hp
      have hk : e.key = k := by simpa using hp
      rw [hk, hm]
      rfl
    rw [find?_filter_keep b.store _ _ hkeep]
  · intro hm
    rw [hd]
    unfold Backend.lookup
    have hdrop : ∀ e : Entry, (e.key == k) = true → (!(globMatch pat e.key)) = false := by
      intro e hp
      have hk : e.key = k := by simpa using hp
      rw [hk, hm]
      rfl
    rw [find?_filter_drop b.store _ _ hdrop]
    rfl
  · intro b1 hc
    have hc2 : managerClear b pref = Except.ok (true,
        ({ b with store := b.store.filter (fun e => !(hasPref (pref ++ ":") e.key)) } : Backend)) := by
      unfold managerClear
      rw [hb]
    rw [hc2] at hc
    have hb1 : ({ b with store := b.store.filter (fun e => !(hasPref (pref ++ ":") e.key)) } : Backend) = b1 := by
      injection hc with h1
      injection h1 with h2 h3
    subst hb1
    constructor
    · intro hm
      unfold Backend.lookup
      have hkeep : ∀ e : Entry, (e.key == k) = true → (!(hasPref (pref ++ ":") e.key)) = true := by
        intro e hp
        have hk : e.key = k := by simpa using hp
        rw [hk, hm]
        rfl
      rw [find?_filter_keep b.store _ _ hkeep]
    · intro hm
      unfold Backend.lookup
      have hdrop : ∀ e : Entry, (e.key == k) = true → (!(hasPref (pref ++ ":") e.key)) = false := by
        intro e hp
        have hk : e.key = k := by simpa using hp
        rw [hk, hm]
        rfl
      rw [find?_filter_drop b.store _ _ hdrop]
      rfl

/-- Witness for C6: in a store holding `user_data:1`, `user_data:2`,
`profile:9`, deleting pattern `user_data*` removes the first two and leaves
`profile:9` untouched; clearing the `user_data` namespace does the same. -/
theorem pattern_delete_frame_witness :
    (deletePattern ⟨none, [⟨"user_data:1", [.tint 1], none⟩, ⟨"user_data:2", [.tint 2], none⟩, ⟨"profile:9", [.tint 9], none⟩]⟩ "user_data*").lookup "user_data:1" = none ∧
    (deletePattern ⟨none, [⟨"user_data:1", [.tint 1], none⟩, ⟨"user_data:2", [.tint 2], none⟩, ⟨"profile:9", [.tint 9], none⟩]⟩ "user_data*").lookup "user_data:2" = none ∧
    (deletePattern ⟨none, [⟨"user_data:1", [.tint 1], none⟩, ⟨"user_data:2", [.tint 2], none⟩, ⟨"profile:9", [.tint 9], none⟩]⟩ "user_data*").lookup "profile:9" =
      (⟨none, [⟨"user_data:1", [.tint 1], none⟩, ⟨"user_data:2", [.tint 2], none⟩, ⟨"profile:9", [.tint 9], none⟩]⟩ : Backend).lookup "profile:9" :=
  ⟨(pattern_delete_frame ⟨none, [⟨"user_data:1", [.tint 1], none⟩, ⟨"user_data:2", [.tint 2], none⟩, ⟨"profile:9", [.tint 9], none⟩]⟩ "user_data*" "user_data:1" "app" rfl).2.1 (by decide),
   (pattern_delete_frame ⟨none, [⟨"user_data:1", [.tint 1], none⟩, ⟨"user_data:2", [.tint 2], none⟩, ⟨"profile:9", [.tint 9], none⟩]⟩ "user_data*" "user_data:2" "app" rfl).2.1 (by decide),
   (pattern_delete_frame ⟨none, [⟨"user_data:1", [.tint 1], none⟩, ⟨"user_data:2", [.tint 2], none⟩, ⟨"profile:9", [.tint 9], none⟩]⟩ "user_data*" "profile:9" "app" rfl).1 (by decide)⟩

/-- Claim C2: the read-through decorator returns a cached value without
invoking the wrapped operation on a hit; on a miss or a Manager-reported
failure it invokes the operation exactly once and its result always reaches
the caller; it stores nothing when the operation fails; and two calls with
identical arguments invoke the operation once, the second call answering
from the cache. -/
theorem cache_response_read_through (pref fname : String) (exp : Option TtlIn)
    (f : Nat → Option PyVal) (b : Backend) (arg : Nat) :
    (∀ v, managerGet b (keyFor pref fname arg) = .ok (some v) →
      cacheResponse pref fname exp f b arg = ⟨some v, b, 0⟩) ∧
    (managerGet b (keyFor pref fname arg) = .ok none →
      (cacheResponse pref fname exp f b arg).result = f arg ∧
      (cacheResponse pref fname exp f b arg).calls = 1) ∧
    (∀ e, managerGet b (keyFor pref fname arg) = .error e →
      (cacheResponse pref fname exp f b arg).result = f arg ∧
      (cacheResponse pref fname exp f b arg).calls = 1) ∧
    (f arg = none → (cacheResponse pref fname exp f b arg).state = b) ∧
    (∀ v ts, b.fail? = none → b.lookup (keyFor pref fname arg) = none →
      f arg = some v → encV v = some ts →
      (cacheResponse pref fname exp f b arg).calls = 1 ∧
      (cacheResponse pref fname exp f b arg).result = some v ∧
      cacheResponse pref fname exp f (cacheResponse pref fname exp f b arg).state arg =
        ⟨some v, (cacheResponse pref fname exp f b arg).state, 0⟩) := by
  refine ⟨?_, ?_, ?_, ?_, ?_⟩
  · intro v hg
    unfold cacheResponse
    rw [hg]
  · intro hg
    cases hf : f arg with
    | none => exact ⟨by simp [cacheResponse, hg, hf], by simp [cacheResponse, hg, hf]⟩
    | some v =>
        cases hs : managerSet b (keyFor pref fname arg) v exp with
        | ok r =>
            obtain ⟨ok1, b1⟩ := r
            exact ⟨by simp [cacheResponse, hg, hf, hs],
              by simp [cacheResponse, hg, hf, hs]⟩
        | error e =>
            exact ⟨by simp [cacheResponse, hg, hf, hs],
              by simp [cacheResponse, hg, hf, hs]⟩
  · intro e hg
    cases hf : f arg with
    | none => exact ⟨by simp [cacheResponse, hg, hf], by simp [cacheResponse, hg, hf]⟩
    | some v =>
        cases hs : managerSet b (keyFor pref fname arg) v exp with
        | ok r =>
            obtain ⟨ok1, b1⟩ := r
            exact ⟨by simp [cacheResponse, hg, hf, hs],
              by simp [cacheResponse, hg, hf, hs]⟩
        | error e2 =>
            exact ⟨by simp [cacheResponse, hg, hf, hs],
              by simp [cacheResponse, hg, hf, hs]⟩
  · intro hf
    unfold cacheResponse
    cases hg : managerGet b (keyFor pref fname arg) with
    | ok o =>
        cases o with
        | none => rw [hf]
        | some v => rfl
    | error e => rw [hf]
  · intro v ts hb hl hf hv
    have he : encode v = .ok ts := by unfold encode; rw [hv]
    have hg : managerGet b (keyFor pref fname arg) = .ok none := by
      unfold managerGet
      split
      · rename_i heq; simp [hb] at heq
      · rw [hl]
    have hset : managerSet b (keyFor pref fname arg) v exp = .ok (true,
        ({ b with store := Entry.mk (keyFor pref fname arg) ts (exp.map TtlIn.toSeconds) :: b.store.filter (fun e => e.key != keyFor pref fname arg) } : Backend)) := by
      simp only [managerSet, he, hb]
    have ho : cacheResponse pref fname exp f b arg = ⟨some v,
        ({ b with store := Entry.mk (keyFor pref fname arg) ts (exp.map TtlIn.toSeconds) :: b.store.filter (fun e => e.key != keyFor pref fname arg) } : Backend), 1⟩ := by
      simp only [cacheResponse, hg, hf, hset]
    have hlk : Backend.lookup ({ fail? := none, store := Entry.mk (keyFor pref fname arg) ts (exp.map TtlIn.toSeconds) :: b.store.filter (fun e => e.key != keyFor pref fname arg) } : Backend) (keyFor pref fname arg) = some ts := by
      unfold Backend.lookup
      simp [List.find?]
    have hd2 : decode ts = Except.ok v := decode_encode v ts he
    have hg2 : managerGet ({ b with store := Entry.mk (keyFor pref fname arg) ts (exp.map TtlIn.toSeconds) :: b.store.filter (fun e => e.key != keyFor pref fname arg) } : Backend) (keyFor pref fname arg) = .ok (some v) := by
      simp only [managerGet, hb, hlk, hd2]
    rw [ho]
    refine ⟨rfl, rfl, ?_⟩
    unfold cacheResponse
    rw [hg2]

/-- Witness for C2: a first call on an empty healthy cache invokes the
operation once and stores the result; the identical second call answers
from the cache without invoking it. -/
theorem cache_response_read_through_witness :
    (cacheResponse "user_data" "get_user" none (fun _ => some (.vstr "John")) ⟨none, []⟩ 7).calls = 1 ∧
    (cacheResponse "user_data" "get_user" none (fun _ => some (.vstr "John")) ⟨none, []⟩ 7).result = some (.vstr "John") ∧
    cacheResponse "user_data" "get_user" none (fun _ => some (.vstr "John")) (cacheResponse "user_data" "get_user" none (fun _ => some (.vstr "John")) ⟨none, []⟩ 7).state 7 =
      ⟨some (.vstr "John"), (cacheResponse "user_data" "get_user" none (fun _ => some (.vstr "John")) ⟨none, []⟩ 7).state, 0⟩ :=
  (cache_response_read_through "user_data" "get_user" none
    (fun _ => some (.vstr "John")) ⟨none, []⟩ 7).2.2.2.2
    (.vstr "John") [.tstr "John"] rfl rfl rfl rfl

end Cache
